import Mathlib

/-!
Verification of the series-correction core (`scripts/processor.py`).

The processor operates on in-memory pandas tables.  We embed it shallowly:

* a value cell is `Option ℚ` (`none` models a missing entry / `NaN`;
  float arithmetic is idealised as exact rational arithmetic);
* the time column is `List ℚ`;
* rolling statistics return `Option` values (`none` at positions where the
  pandas rolling window is incomplete or contains a missing entry, matching
  `min_periods = window`);
* the one place the source needs a square root (the rolling standard
  deviation inside `detect_jumps`) is embedded over `ℝ`.

Python's `sorted` and pandas `sort_values` are modelled by a stable
insertion sort; Python's `round` by round-half-to-even.
-/

set_option linter.unusedVariables false

namespace SeriesCorrection

/-- A value cell of the sensor column: `none` models a missing entry (`NaN`). -/
abbrev Val := Option ℚ

/-- Insert an element into a list at the first position where `r a b` holds
(the insertion step of a stable insertion sort). -/
def insertOrd (r : α → α → Bool) (a : α) : List α → List α
  | [] => [a]
  | b :: l => if r a b then a :: b :: l else b :: insertOrd r a l

/-- Stable insertion sort by the boolean relation `r`; models Python's
`sorted` and pandas `sort_values`. -/
def isort (r : α → α → Bool) : List α → List α
  | [] => []
  | a :: l => insertOrd r a (isort r l)

/-- Median of a list of rationals as `pandas.Series.median` computes it on a
list without missing entries: the middle element of the sorted list for odd
length, the average of the two middle elements for even length (`0` on the
empty list, which is guarded against at every call site as in the source). -/
def medianQ (l : List ℚ) : ℚ :=
  let s := isort (fun a b => decide (a ≤ b)) l
  let n := s.length
  if n = 0 then 0
  else if n % 2 = 1 then s.getD (n / 2) 0
  else (s.getD (n / 2 - 1) 0 + s.getD (n / 2) 0) / 2

/-- Median with pandas `NaN` handling (`skipna=True`): the median of the
present entries, `none` when no entry is present. -/
def medianOpt (l : List Val) : Option ℚ :=
  let v := l.filterMap id
  if v.isEmpty then none else some (medianQ v)

/-- Mean with pandas `NaN` handling (`skipna=True`). -/
def meanOpt (l : List Val) : Option ℚ :=
  let v := l.filterMap id
  if v.isEmpty then none else some (v.sum / (v.length : ℚ))

/-!  ## GapDetector (`detect_gaps`, processor.py lines 18-80)  -/

/-- The consecutive time differences `data[time_col].diff()` restricted to the
valid (non-first) positions: entry `j` is `t[j+1] - t[j]`. -/
def timeDiffs (times : List ℚ) : List ℚ :=
  (List.range (times.length - 1)).map (fun j => times.getD (j + 1) 0 - times.getD j 0)

/-- `detect_gaps`: flags every row position whose time difference from the
previous row strictly exceeds `threshold_factor` times the median of the
consecutive time differences.  Returns `[]` when fewer than 2 rows exist or
when that median is non-positive. -/
def detect_gaps (times : List ℚ) (threshold_factor : ℚ) : List ℕ :=
  if times.length < 2 then []
  else
    let diffsValid := timeDiffs times
    if diffsValid.isEmpty then []
    else
      let medianDiff := medianQ diffsValid
      if medianDiff ≤ 0 then []
      else
        let gapThreshold := threshold_factor * medianDiff
        (List.range times.length).filter
          (fun i => decide (1 ≤ i) && decide (times.getD i 0 - times.getD (i - 1) 0 > gapThreshold))

/-!  ## OutlierDetector (`detect_outliers`, processor.py lines 156-235)  -/

/-- Rolling statistic `f` over a trailing window of width `w` labelled at
position `j`, with pandas `min_periods = w`: defined only when the window is
complete and free of missing entries. -/
def rollT (f : List ℚ → ℚ) (xs : List Val) (w j : ℕ) : Option ℚ :=
  if w = 0 then none
  else if w ≤ j + 1 ∧ j < xs.length then
    let win := (xs.drop (j + 1 - w)).take w
    if win.any (fun v => v.isNone) then none else some (f (win.filterMap id))
  else none

/-- Rolling statistic `f` over a centred window of width `w` at position `i`:
pandas `rolling(window=w, center=True)` shifts the trailing result left by
`(w - 1) / 2`. -/
def rollC (f : List ℚ → ℚ) (xs : List Val) (w i : ℕ) : Option ℚ :=
  rollT f xs w (i + (w - 1) / 2)

/-- The median absolute deviation of a list (the rolling-apply lambda of the
source: `pd.Series(x).sub(pd.Series(x).median()).abs().median()`). -/
def madQ (l : List ℚ) : ℚ :=
  medianQ (l.map (fun x => |x - medianQ l|))

/-- Centred rolling median of width `w` at position `i`. -/
def rollingMedianC (xs : List Val) (w i : ℕ) : Option ℚ :=
  rollC medianQ xs w i

/-- Centred rolling MAD of width `w` at position `i`, scaled by 1.4826. -/
def rollingScaledMad (xs : List Val) (w i : ℕ) : Option ℚ :=
  (rollC madQ xs w i).map (fun m => m * (14826 / 10000))

/-- The flag decision of `detect_outliers` at one row, given the value column,
window size and threshold.  `1e-6` is the source's epsilon; a z-score of
`np.inf` compares greater than any threshold, and a z-score of `0.0` exceeds
the threshold only when the threshold is negative. -/
def outlierFlag (xs : List Val) (w : ℕ) (θ : ℚ) (i : ℕ) : Bool :=
  match rollingMedianC xs w i, rollingScaledMad xs w i with
  | some m, some s =>
    if s < 1 / 1000000 then
      match xs.getD i none with
      | some v =>
        if |v - m| > 1 / 1000000 then
          if |v - m| > θ * (1 / 1000000) then true  -- z = np.inf
          else decide ((0 : ℚ) > θ)                 -- z = 0.0
        else decide ((0 : ℚ) > θ)                   -- z = 0.0
      | none => decide ((0 : ℚ) > θ)                -- NaN comparisons are false, z = 0.0
    else
      match xs.getD i none with
      | some v => decide (|v - m| / s > θ)
      | none => false                               -- z is NaN, NaN > θ is false
  | _, _ => false                                   -- undefined rolling stats: `continue`

/-- `detect_outliers`: modified z-scores from a centred rolling median and a
centred rolling scaled MAD; empty when fewer than `window_size` rows exist. -/
def detect_outliers (xs : List Val) (w : ℕ) (θ : ℚ) : List ℕ :=
  if xs.length < w then []
  else (List.range xs.length).filter (outlierFlag xs w θ)

/-!  ## Linear interpolation (pandas `interpolate(limit_direction='both')`)  -/

/-- Position and value of the last present entry strictly before position
`i` (the first argument is `i`). -/
def prevSome (vals : List Val) : ℕ → Option (ℕ × ℚ)
  | 0 => none
  | j + 1 =>
    match vals.getD j none with
    | some v => some (j, v)
    | none => prevSome vals j

/-- Position and value of the first present entry strictly after position
`i`. -/
def nextSome (vals : List Val) (i : ℕ) : Option (ℕ × ℚ) :=
  match (vals.drop (i + 1)).findIdx? (fun v => v.isSome) with
  | some k => (vals.getD (i + 1 + k) none).map (fun v => (i + 1 + k, v))
  | none => none

/-- Value of `interpolate(method=…, limit_direction='both')` at position `i`,
with abscissae `xs` (row positions for `'linear'`, the time column for
`'time'`): present entries are kept; a missing entry between two present ones
is interpolated linearly in `xs`; a missing entry before the first (after the
last) present one takes that boundary value; an all-missing column stays
missing. -/
def interpolateAt (xs : List ℚ) (vals : List Val) (i : ℕ) : Val :=
  match vals.getD i none with
  | some v => some v
  | none =>
    match prevSome vals i, nextSome vals i with
    | some (j, a), some (k, b) =>
      some (a + (b - a) * ((xs.getD i 0 - xs.getD j 0) / (xs.getD k 0 - xs.getD j 0)))
    | some (_, a), none => some a
    | none, some (_, b) => some b
    | none, none => none

/-- Interpolation of a whole column with abscissae `xs`. -/
def interpolateWith (xs : List ℚ) (vals : List Val) : List Val :=
  (List.range vals.length).map (interpolateAt xs vals)

/-- Linear interpolation: abscissae are the integer row positions. -/
def interpolateLinear (vals : List Val) : List Val :=
  interpolateWith ((List.range vals.length).map (fun i => (i : ℚ))) vals

/-!  ## OutlierCorrector (`correct_outliers`, processor.py lines 422-486)  -/

/-- One replacement step of the `median`/`mean` loop of `correct_outliers`,
acting on the column as it stands when the flagged position `p` is processed:
the window is `range(max(0, p - w//2), min(n, p + w//2 + 1))`, the flagged
position itself and every other flagged position are excluded, the
median/mean of the remaining values (skipping missing ones) replaces the
value at `p`; the step is skipped when no valid neighbour remains or the
replacement is undefined. -/
def outlierReplaceStep (w : ℕ) (idxs : List ℕ) (useMedian : Bool)
    (cur : List Val) (p : ℕ) : List Val :=
  let n := cur.length
  let start := p - w / 2
  let stop := min n (p + w / 2 + 1)
  let valid := (List.range' start (stop - start)).filter
    (fun j => decide (j ≠ p) && decide (j ∉ idxs))
  if valid.isEmpty then cur
  else
    let surrounding := valid.map (fun j => cur.getD j none)
    let repl := if useMedian then medianOpt surrounding else meanOpt surrounding
    match repl with
    | some r => cur.set p (some r)
    | none => cur

/-- `correct_outliers`.  The source mutates only the value column of the
table, so the embedding acts on that column; the four supported methods are
modelled exactly, and any other method string is the logged no-op of the
source's final `else`. -/
def correct_outliers (vals : List Val) (idxs : List ℕ) (w : ℕ)
    (method : String) : List Val :=
  if idxs.isEmpty then vals
  else if method = "interpolate" then
    interpolateLinear (vals.mapIdx (fun j v => if j ∈ idxs then none else v))
  else if method = "remove" then
    vals.mapIdx (fun j v => if j ∈ idxs then none else v)
  else if method = "median" ∨ method = "mean" then
    idxs.foldl (outlierReplaceStep w idxs (method = "median")) vals
  else vals

/-- The replacement step as the claim words it: the neighbourhood of `p` is
the centred window of width `window_size` (every position within distance
`window_size / 2` of `p`), the flagged positions and `p` itself are excluded,
and the median/mean is taken over the column as it stands at this step. -/
def outlierReplaceStepClaim (w : ℕ) (idxs : List ℕ) (useMedian : Bool)
    (cur : List Val) (p : ℕ) : List Val :=
  let valid := (List.range cur.length).filter
    (fun j => decide (j ≤ p + w / 2) && decide (p ≤ j + w / 2) &&
      decide (j ≠ p) && decide (j ∉ idxs))
  if valid.isEmpty then cur
  else
    let surrounding := valid.map (fun j => cur.getD j none)
    let repl := if useMedian then medianOpt surrounding else meanOpt surrounding
    match repl with
    | some r => cur.set p (some r)
    | none => cur

/-!  ## JumpCorrector (`correct_jumps`, processor.py lines 362-419)  -/

/-- One iteration of the `correct_jumps` loop at flagged position `p` over
the value column as it stands: skip when fewer than `window_size` rows exist
on either side (`p < w` or `p ≥ n - w`); otherwise take the medians of
`iloc[p-w : p]` and `iloc[p : p+w]`, skip on an undefined median, and add
`median_before - median_after` to every value at a position `≥ p`. -/
def jumpStep (w : ℕ) (vals : List Val) (p : ℕ) : List Val :=
  let n := vals.length
  if p < w ∨ n - w ≤ p then vals
  else
    let windowBefore := (vals.drop (p - w)).take w
    let windowAfter := (vals.drop p).take w
    match medianOpt windowBefore, medianOpt windowAfter with
    | some mb, some ma =>
      vals.mapIdx (fun j v => if p ≤ j then v.map (fun x => x + (mb - ma)) else v)
    | _, _ => vals

/-- `correct_jumps`: the flagged positions are processed in ascending order
over the progressively mutated column. -/
def correct_jumps (vals : List Val) (idxs : List ℕ) (w : ℕ) : List Val :=
  if idxs.isEmpty then vals
  else (isort (fun a b => decide (a ≤ b)) idxs).foldl (jumpStep w) vals

/-- The `window_size` values immediately before position `p`, read off
elementwise as the claim describes them. -/
def valuesBefore (vals : List Val) (w p : ℕ) : List Val :=
  (List.range w).map (fun j => vals.getD (p - w + j) none)

/-- The `window_size` values from position `p` on (the source's "after"
window starts at the flagged position itself, the first post-jump sample). -/
def valuesAfter (vals : List Val) (w p : ℕ) : List Val :=
  (List.range w).map (fun j => vals.getD (p + j) none)

/-!  ## JumpDetector (`detect_jumps`, processor.py lines 83-153)

The rolling standard deviation takes a real square root, so this detector is
embedded over `ℝ` (value cells `Option ℝ`, `none` for `NaN`).  -/

/-- The complete, `NaN`-free trailing window of width `w` at label `j`, when
it exists (pandas `min_periods = w`). -/
def rollWinR (xs : List (Option ℝ)) (w j : ℕ) : Option (List ℝ) :=
  if w = 0 then none
  else if w ≤ j + 1 ∧ j < xs.length then
    let win := (xs.drop (j + 1 - w)).take w
    if win.any (fun v => v.isNone) then none else some (win.filterMap id)
  else none

/-- Sample standard deviation of a list (pandas `ddof = 1`). -/
noncomputable def stdR (l : List ℝ) : ℝ :=
  Real.sqrt ((l.map (fun x => (x - l.sum / l.length) ^ 2)).sum / ((l.length : ℝ) - 1))

/-- Trailing rolling mean at label `j`. -/
noncomputable def rollMeanR (xs : List (Option ℝ)) (w j : ℕ) : Option ℝ :=
  (rollWinR xs w j).map (fun l => l.sum / l.length)

/-- Trailing rolling sample standard deviation at label `j` (undefined on a
single observation, where the `ddof = 1` denominator vanishes to `NaN`). -/
noncomputable def rollStdR (xs : List (Option ℝ)) (w j : ℕ) : Option ℝ :=
  (rollWinR xs w j).bind (fun l => if l.length < 2 then none else some (stdR l))

/-- One iteration of the CUSUM loop of `detect_jumps` at position `i`, given
the running cumulative sum (`none` models a `NaN` cusum): deviation is
`value[i] - rolling_mean[i-1]`; it is divided by `rolling_std[i-1]` when that
std is defined and exceeds `1e-6`, and replaced by `0.0` otherwise; the sum
is accumulated, and when its absolute value exceeds the threshold the
position is flagged and the sum reset to `0`.  Returns the new cusum and the
flag. -/
noncomputable def jumpUpd (xs : List (Option ℝ)) (w : ℕ) (θ : ℝ)
    (c : Option ℝ) (i : ℕ) : Option ℝ × Bool :=
  let meanPrev := rollMeanR xs w (i - 1)
  let stdPrev := rollStdR xs w (i - 1)
  let deviation : Option ℝ :=
    match xs.getD i none, meanPrev with
    | some v, some m => some (v - m)
    | _, _ => none
  let normalized : Option ℝ :=
    match stdPrev with
    | some s =>
      if 1 / 1000000 < s then
        match deviation with
        | some d => some (d / s)
        | none => none
      else some 0
    | none => some 0
  match c, normalized with
  | some a, some b => if θ < |a + b| then (some 0, true) else (some (a + b), false)
  | _, _ => (none, false)

/-- The loop of `detect_jumps` from position `i` with running cusum `c`. -/
noncomputable def detectJumpsGo (xs : List (Option ℝ)) (w : ℕ) (θ : ℝ)
    (i : ℕ) (c : Option ℝ) : List ℕ :=
  if h : i < xs.length then
    (if (jumpUpd xs w θ c i).2 then [i] else []) ++
      detectJumpsGo xs w θ (i + 1) (jumpUpd xs w θ c i).1
  else []
termination_by xs.length - i

/-- `detect_jumps`: empty when fewer than `window_size * 2` rows exist, else
one stateful left-to-right pass starting at position `window_size` with
cusum `0.0`. -/
noncomputable def detect_jumps (xs : List (Option ℝ)) (w : ℕ) (θ : ℝ) : List ℕ :=
  if xs.length < w * 2 then []
  else detectJumpsGo xs w θ w (some 0)

/-- The claim's reading of the jump detector: on a table with at least
`2 × window_size` rows, a single left-to-right fold over the positions from
`window_size` to the end, threading the cumulative sum and collecting the
flagged positions; empty otherwise. -/
noncomputable def detect_jumps_claim (xs : List (Option ℝ)) (w : ℕ) (θ : ℝ) : List ℕ :=
  if xs.length < 2 * w then []
  else
    ((List.range' w (xs.length - w)).foldl
      (fun st i =>
        ((jumpUpd xs w θ st.1 i).1,
          if (jumpUpd xs w θ st.1 i).2 then st.2 ++ [i] else st.2))
      ((some (0 : ℝ) : Option ℝ), ([] : List ℕ))).2

/-!  ## GapCorrector (`correct_gaps`, processor.py lines 238-359)  -/

/-- The table as the gap stage sees it: the (numeric) time column, the value
column being corrected, and whether the pandas index is a `DatetimeIndex`
(the only index fact the source ever branches on, line 348). -/
structure Frame where
  times : List ℚ
  vals : List Val
  dtIndex : Bool
deriving DecidableEq

/-- `sort_values(by=time_col)` followed by `reset_index(drop=True)`: rows are
stably sorted by time and the index becomes a plain range index. -/
def sortByTime (f : Frame) : Frame :=
  let rows := isort (fun a b => decide (a.1 ≤ b.1)) (f.times.zip f.vals)
  ⟨rows.map (fun r => r.1), rows.map (fun r => r.2), false⟩

/-- Python's built-in `round` (also numpy's): nearest integer, ties to the
even one. -/
def pyRound (q : ℚ) : ℤ :=
  let f := ⌊q⌋
  let r := q - (f : ℚ)
  if r < 1 / 2 then f
  else if 1 / 2 < r then f + 1
  else if f % 2 = 0 then f else f + 1

/-- `np.linspace a b k`: `k` evenly spaced points from `a` to `b` inclusive
(just `[a]` for `k = 1`; rational division by zero is zero, which makes the
uniform formula agree with that case). -/
def linspaceQ (a b : ℚ) (k : ℕ) : List ℚ :=
  (List.range k).map (fun (j : ℕ) => a + (j : ℚ) * (b - a) / ((k : ℚ) - 1))

/-- The gap boundaries and the local normal step for the gap at position `g`:
the step is the interval just before the gap, or, at the very start, the
interval just after it; `none` when neither exists. -/
def gapStepInfo (f : Frame) (g : ℕ) : Option (ℚ × ℚ × ℚ) :=
  let tb := f.times.getD (g - 1) 0
  let ta := f.times.getD g 0
  if 1 < g then some (tb, ta, tb - f.times.getD (g - 2) 0)
  else if g + 1 < f.times.length then some (tb, ta, f.times.getD (g + 1) 0 - ta)
  else none

/-- One iteration of the gap-filling loop at gap position `g`: `some` of the
frame with the inserted rows on success, `none` when the gap is skipped
(no derivable step, non-positive step, or a non-positive missing count). -/
def gapInsertStep (f : Frame) (g : ℕ) : Option Frame :=
  match gapStepInfo f g with
  | none => none
  | some (tb, ta, s) =>
    if s ≤ 0 then none
    else
      let k := pyRound ((ta - tb) / s) - 1
      if k ≤ 0 then none
      else
        let newTimes := linspaceQ (tb + s) (ta - s) k.toNat
        some ⟨f.times.take g ++ newTimes ++ f.times.drop g,
              f.vals.take g ++ List.replicate k.toNat (none : Val) ++ f.vals.drop g,
              false⟩

/-- The gap-filling loop: gaps in the given (descending-sorted) order, with
the processed set of the source (`processed_gap_indices`, extended only on a
successful insertion); position 0 is never processed. -/
def gapInsertGo (f : Frame) : List ℕ → List ℕ → Frame
  | [], _ => f
  | g :: rest, done =>
    if g ∈ done ∨ g = 0 then gapInsertGo f rest done
    else
      match gapInsertStep f g with
      | some f2 => gapInsertGo f2 rest (g :: done)
      | none => gapInsertGo f rest done

/-- The number of rows the gap at position `g` asks to insert:
`round((t_after - t_before) / step) - 1`, and `0` whenever the gap is
skipped (no derivable or non-positive step, or a non-positive count). -/
def missingCount (f : Frame) (g : ℕ) : ℕ :=
  match gapStepInfo f g with
  | none => 0
  | some (tb, ta, s) =>
    if s ≤ 0 then 0 else (pyRound ((ta - tb) / s) - 1).toNat

/-- Specification-side count of the rows the gap-filling loop inserts in
total, gap by processed gap. -/
def totalInserted (f : Frame) : List ℕ → List ℕ → ℕ
  | [], _ => 0
  | g :: rest, done =>
    if g ∈ done ∨ g = 0 then totalInserted f rest done
    else
      match gapInsertStep f g with
      | some f2 => missingCount f g + totalInserted f2 rest (g :: done)
      | none => totalInserted f rest done

/-- `correct_gaps`: on a non-empty finding set, sort and reset the index,
fill every gap in descending position order, then interpolate the value
column.  The `'time'` interpolation branch requires a `DatetimeIndex`; with a
range index the source logs a warning and falls back to `'linear'`.  (Other
pandas method strings are outside the modelled pipeline and leave the column
as inserted.) -/
def correct_gaps (f : Frame) (idxs : List ℕ) (method : String) : Frame :=
  if idxs.isEmpty then f
  else
    let f1 := sortByTime f
    let f2 := gapInsertGo f1 (isort (fun a b => decide (b ≤ a)) idxs) []
    if method = "time" ∧ f2.dtIndex = true then
      ⟨f2.times, interpolateWith f2.times f2.vals, f2.dtIndex⟩
    else if method = "time" then
      ⟨f2.times, interpolateLinear f2.vals, f2.dtIndex⟩
    else if method = "linear" then
      ⟨f2.times, interpolateLinear f2.vals, f2.dtIndex⟩
    else f2

/-!  ## Pipeline (`process_data`, processor.py lines 489-613)

The raw table from the loader is a list of named columns (names assumed
distinct, as the loader produces); a column is numeric, datetime-like (in
which case `pd.to_datetime` succeeds and yields the carried epoch seconds),
or text that `pd.to_datetime` rejects.  -/

/-- A raw column as the pipeline's validation sees it. -/
inductive ColData where
  | num (vals : List ℚ)
  | dt (secs : List ℚ)
  | txt
deriving DecidableEq

/-- The resolved configuration mapping (defaults already overlaid). -/
structure Config where
  window_size : ℕ
  threshold : ℚ
  gap_threshold_factor : ℚ
  gap_method : String
  outlier_method : String
  time_col : String
  value_col : Option String
deriving DecidableEq

/-- The defaults of `process_data`. -/
def defaultConfig : Config :=
  ⟨5, 3, 3, "time", "median", "Time (Seconds)", none⟩

/-- A loader table: named columns. -/
abbrev RawTable := List (String × ColData)

/-- First column with the given name. -/
def lookupCol (t : RawTable) (c : String) : Option ColData :=
  (t.find? (fun p => p.1 = c)).map (fun p => p.2)

/-- Whether a column is numeric (`pd.api.types.is_numeric_dtype`). -/
def isNum : ColData → Bool
  | .num _ => true
  | _ => false

/-- A numeric reading of a column: numeric data as is; datetime data as
elapsed seconds since the epoch, floored to whole seconds
(`(ts - Timestamp("1970-01-01")) // Timedelta("1s")`); none for text. -/
def toNumeric : ColData → Option (List ℚ)
  | .num v => some v
  | .dt secs => some (secs.map (fun s => ((⌊s⌋ : ℤ) : ℚ)))
  | .txt => none

/-- Resolution of the value column on the processed table (time column
already converted, hence `times`): the configured name must exist and be
numeric; an unset name auto-detects the first numeric column other than the
time column. -/
def resolveValueCol (t : RawTable) (cfg : Config) (times : List ℚ) :
    Option (List ℚ) :=
  match cfg.value_col with
  | some v =>
    if v = cfg.time_col then some times
    else
      match lookupCol t v with
      | some (.num vs) => some vs
      | _ => none
  | none =>
    match t.find? (fun p => decide (p.1 ≠ cfg.time_col) && isNum p.2) with
    | some p =>
      match p.2 with
      | .num vs => some vs
      | _ => none
    | none => none

/-- The three detect-and-correct stages of `process_data`, in order, on the
sorted table: gaps (with a re-sort after correction), outliers, jumps.  Each
corrector runs only when its detector found something. -/
noncomputable def runStages (times : List ℚ) (vs : List ℚ) (cfg : Config) : Frame :=
  let f0 := sortByTime ⟨times, vs.map some, false⟩
  let gaps := detect_gaps f0.times cfg.gap_threshold_factor
  let f1 := if gaps.isEmpty then f0
            else sortByTime (correct_gaps f0 gaps cfg.gap_method)
  let outl := detect_outliers f1.vals cfg.window_size cfg.threshold
  let v2 := if outl.isEmpty then f1.vals
            else correct_outliers f1.vals outl cfg.window_size cfg.outlier_method
  let jumps := detect_jumps (v2.map (fun o => o.map (fun q => (q : ℝ))))
    cfg.window_size (cfg.threshold : ℝ)
  let v3 := if jumps.isEmpty then v2 else correct_jumps v2 jumps cfg.window_size
  ⟨f1.times, v3, f1.dtIndex⟩

/-- `process_data`: validate and resolve the time column, then the value
column, failing fast with an error before any stage runs; on success run the
three stages and return the resulting table. -/
noncomputable def process_data (t : RawTable) (cfg : Config) : Except String Frame :=
  match lookupCol t cfg.time_col with
  | none => .error "time column not found in data columns"
  | some cd =>
    match toNumeric cd with
    | none => .error "time column is not numeric and could not be converted"
    | some times =>
      match resolveValueCol t cfg times with
      | none => .error "no numeric value column could be resolved"
      | some vs => .ok (runStages times vs cfg)

/-- The claim's condition for a usable time column: present, and numeric or
convertible to elapsed seconds. -/
def timeColOk (t : RawTable) (cfg : Config) : Bool :=
  match lookupCol t cfg.time_col with
  | some cd => (toNumeric cd).isSome
  | none => false

/-- The claim's condition for a resolvable value column: the configured
column is present and numeric (the converted time column counts as numeric),
or, when unset, some numeric column other than the time column exists to
auto-detect. -/
def valueColOk (t : RawTable) (cfg : Config) : Bool :=
  match cfg.value_col with
  | some v =>
    if v = cfg.time_col then timeColOk t cfg
    else
      match lookupCol t v with
      | some (.num _) => true
      | _ => false
  | none => t.any (fun p => decide (p.1 ≠ cfg.time_col) && isNum p.2)

/-- The resolved time column (defaulting to `[]`, only read on success). -/
def resolvedTimes (t : RawTable) (cfg : Config) : List ℚ :=
  ((lookupCol t cfg.time_col).bind toNumeric).getD []

/-- The resolved value column (defaulting to `[]`, only read on success). -/
def resolvedVals (t : RawTable) (cfg : Config) : List ℚ :=
  (resolveValueCol t cfg (resolvedTimes t cfg)).getD []

/-!  ## Theorems  -/

/-- Membership in a `List.range`-filter is position plus condition. -/
theorem mem_range_filter {n : ℕ} {p : ℕ → Bool} {i : ℕ} :
    i ∈ (List.range n).filter p ↔ i < n ∧ p i = true := by
  simp [List.mem_filter, List.mem_range, and_comm]

/-- The list of valid consecutive differences has one entry per non-first row. -/
theorem timeDiffs_length (times : List ℚ) : (timeDiffs times).length = times.length - 1 := by
  simp [timeDiffs]

/-- C5.  `detect_gaps` on a sorted table with at least 2 rows and a positive
median consecutive time difference flags exactly the positions whose time
difference from the previous row exceeds `threshold_factor` times that median
(each flagged position being the first sample after its gap); with fewer than
2 rows, or a non-positive median difference, it returns the empty finding set
(and, being a total function, raises no error). -/
theorem detect_gaps_spec (times : List ℚ) (factor : ℚ) :
    (List.Sorted (· ≤ ·) times → 2 ≤ times.length →
      0 < medianQ (timeDiffs times) →
      ∀ i, i ∈ detect_gaps times factor ↔
        1 ≤ i ∧ i < times.length ∧
          factor * medianQ (timeDiffs times) < times.getD i 0 - times.getD (i - 1) 0)
    ∧ (times.length < 2 ∨ medianQ (timeDiffs times) ≤ 0 →
        detect_gaps times factor = []) := by
  constructor
  · intro _ h2 hmed i
    have hlen : ¬ times.length < 2 := by omega
    have hne : ¬ (timeDiffs times).isEmpty = true := by
      simp [List.isEmpty_iff, ← List.length_eq_zero, timeDiffs_length]
      omega
    simp only [detect_gaps, if_neg hlen, if_neg hne, if_neg (not_le.mpr hmed)]
    rw [mem_range_filter]
    simp only [Bool.and_eq_true, decide_eq_true_eq]
    constructor
    · rintro ⟨hi, hge, hgt⟩; exact ⟨hge, hi, hgt⟩
    · rintro ⟨hge, hi, hgt⟩; exact ⟨hi, hge, hgt⟩
  · intro h
    rcases h with h | h
    · simp [detect_gaps, if_pos h]
    · by_cases hlen : times.length < 2
      · simp [detect_gaps, if_pos hlen]
      · by_cases hne : (timeDiffs times).isEmpty
        · simp [detect_gaps, if_neg hlen, hne]
        · simp [detect_gaps, if_neg hlen, hne, h]

/-- Witness for C5 on the spec's Scenario B table: times `0,1,2,3,10,11`,
factor 3, median difference 1; position 4 (the first sample after the gap of
7) is flagged. -/
theorem detect_gaps_spec_witness :
    4 ∈ detect_gaps [0, 1, 2, 3, 10, 11] 3 ↔
      1 ≤ 4 ∧ 4 < ([0, 1, 2, 3, 10, 11] : List ℚ).length ∧
        3 * medianQ (timeDiffs [0, 1, 2, 3, 10, 11]) <
          ([0, 1, 2, 3, 10, 11] : List ℚ).getD 4 0 - ([0, 1, 2, 3, 10, 11] : List ℚ).getD (4 - 1) 0 :=
  (detect_gaps_spec [0, 1, 2, 3, 10, 11] 3).1 (by decide) (by decide)
    (by norm_num [timeDiffs, medianQ, isort, insertOrd, List.range_succ]) 4

/-- A defined rolling statistic forces a positive window that fits before the
end of the list. -/
theorem rollT_some (f : List ℚ → ℚ) (xs : List Val) (w j : ℕ) {m : ℚ}
    (h : rollT f xs w j = some m) : w ≠ 0 ∧ w ≤ j + 1 ∧ j < xs.length := by
  by_contra hc
  rw [rollT] at h
  rcases Decidable.em (w = 0) with h0 | h0
  · simp [h0] at h
  · rcases Decidable.em (w ≤ j + 1 ∧ j < xs.length) with h1 | h1
    · exact hc ⟨h0, h1⟩
    · simp [h0, h1] at h

/-- C1 counterexample.  On the table `[0, 2e-6, 0]` with `window_size = 3` and
`threshold = 3`, row 1 has defined rolling statistics, its scaled rolling MAD
(0) is below the epsilon `1e-6`, and its absolute deviation from the rolling
median (`2e-6`) exceeds that epsilon — yet `detect_outliers` does not flag it,
because the code additionally requires the deviation to exceed
`threshold * 1e-6 = 3e-6`.  This refutes the claimed biconditional. -/
theorem detect_outliers_claim_counterexample :
    rollingMedianC [some 0, some (1 / 500000), some 0] 3 1 = some 0
    ∧ rollingScaledMad [some 0, some (1 / 500000), some 0] 3 1 = some 0
    ∧ (0 : ℚ) < 1 / 1000000
    ∧ 1 / 1000000 < |((1 : ℚ) / 500000) - 0|
    ∧ ([some 0, some (1 / 500000), some 0] : List Val).getD 1 none = some (1 / 500000)
    ∧ 1 ∉ detect_outliers [some 0, some (1 / 500000), some 0] 3 3 := by
  have habs : |((1 : ℚ) / 500000)| = 1 / 500000 := abs_of_nonneg (by norm_num)
  refine ⟨?_, ?_, by norm_num, by rw [sub_zero, habs]; norm_num, rfl, ?_⟩
  · norm_num [rollingMedianC, rollC, rollT, medianQ, isort, insertOrd]
  · norm_num [rollingScaledMad, rollC, rollT, madQ, medianQ, isort, insertOrd]
  · norm_num [detect_outliers, outlierFlag, rollingMedianC, rollingScaledMad, rollC, rollT,
      madQ, medianQ, isort, insertOrd, List.range_succ, List.filter_append, List.filter, habs]

/-- C1 amended.  For a non-negative threshold: a table shorter than
`window_size` yields an empty finding set; rows with an undefined rolling
median or scaled MAD are never flagged; when both statistics are defined and
the scaled MAD is below the epsilon `1e-6`, the row is flagged iff its
absolute deviation from the rolling median exceeds both the epsilon and
`threshold` times the epsilon; otherwise the row is flagged iff
`|value - median| / scaled_mad > threshold`. -/
theorem detect_outliers_amended (xs : List Val) (w : ℕ) (θ : ℚ)
    (hθ : 0 ≤ θ) :
    (xs.length < w → detect_outliers xs w θ = [])
    ∧ (∀ i, rollingMedianC xs w i = none ∨ rollingScaledMad xs w i = none →
        i ∉ detect_outliers xs w θ)
    ∧ (∀ i v m s, xs.getD i none = some v → rollingMedianC xs w i = some m →
        rollingScaledMad xs w i = some s →
        ((s < 1 / 1000000 →
            (i ∈ detect_outliers xs w θ ↔
              1 / 1000000 < |v - m| ∧ θ * (1 / 1000000) < |v - m|))
         ∧ (1 / 1000000 ≤ s →
            (i ∈ detect_outliers xs w θ ↔ θ < |v - m| / s)))) := by
  have hz : decide ((0 : ℚ) > θ) = false := by
    simp only [decide_eq_false_iff_not]; exact not_lt.mpr hθ
  refine ⟨fun h => by simp [detect_outliers, if_pos h], ?_, ?_⟩
  · intro i hnone hmem
    by_cases hlen : xs.length < w
    · simp [detect_outliers, if_pos hlen] at hmem
    · rw [detect_outliers, if_neg hlen, mem_range_filter] at hmem
      rcases hmem with ⟨_, hflag⟩
      rw [outlierFlag] at hflag
      cases hmed : rollingMedianC xs w i <;> cases hsm : rollingScaledMad xs w i <;>
        rw [hmed, hsm] at hflag <;> simp_all
  · intro i v m s hv hm hs
    have hwin := rollT_some medianQ xs w (i + (w - 1) / 2) hm
    have hin : i < xs.length := lt_of_le_of_lt (Nat.le_add_right i _) hwin.2.2
    have hlen : ¬ xs.length < w := by
      have := hwin.2.1; have := hwin.2.2; omega
    have hmem : i ∈ detect_outliers xs w θ ↔ outlierFlag xs w θ i = true := by
      rw [detect_outliers, if_neg hlen, mem_range_filter]
      exact ⟨fun h => h.2, fun h => ⟨hin, h⟩⟩
    constructor
    · intro hsmall
      rw [hmem]
      simp only [outlierFlag, hm, hs, hv, if_pos hsmall, hz]
      by_cases h1 : |v - m| > 1 / 1000000
      · by_cases h2 : |v - m| > θ * (1 / 1000000)
        · simp only [if_pos h1, if_pos h2]
          exact iff_of_true (by simp) ⟨h1, h2⟩
        · simp only [if_pos h1, if_neg h2]
          exact iff_of_false (by simp) (fun hc => h2 hc.2)
      · simp only [if_neg h1]
        exact iff_of_false (by simp) (fun hc => h1 hc.1)
    · intro hbig
      rw [hmem]
      simp only [outlierFlag, hm, hs, hv, if_neg (not_lt.mpr hbig)]
      simp

/-- Witness for the amended C1 on the spec's Scenario A table: ten values of
10 with one 1000 at position 4, `window_size = 5`, `threshold = 3`.  The
rolling scaled MAD at position 4 is 0 (below epsilon), the deviation 990
exceeds both bounds, and the position is flagged. -/
theorem detect_outliers_amended_witness :
    4 ∈ detect_outliers ([10, 10, 10, 10, 1000, 10, 10, 10, 10, 10].map some) 5 3 ↔
      1 / 1000000 < |(1000 : ℚ) - 10| ∧ 3 * (1 / 1000000) < |(1000 : ℚ) - 10| :=
  ((detect_outliers_amended ([10, 10, 10, 10, 1000, 10, 10, 10, 10, 10].map some) 5 3
      (by norm_num)).2.2 4 1000 10 0 rfl
    (by norm_num [rollingMedianC, rollC, rollT, medianQ, isort, insertOrd])
    (by norm_num [rollingScaledMad, rollC, rollT, madQ, medianQ, isort, insertOrd])).1
    (by norm_num)

/-- Filtering `range n` to an interval `[s, e)` is a `range'` segment. -/
theorem filter_range_interval (n s e : ℕ) :
    (List.range n).filter (fun j => decide (s ≤ j) && decide (j < e)) =
      List.range' s (min n e - s) := by
  induction n with
  | zero => simp
  | succ n ih =>
    rw [List.range_succ, List.filter_append, ih]
    by_cases hs : s ≤ n
    · by_cases he : n < e
      · have h1 : min (n + 1) e = n + 1 := by omega
        have h2 : min n e = n := by omega
        rw [h1, h2]
        have h3 : n + 1 - s = (n - s) + 1 := by omega
        rw [h3, List.range'_concat]
        simp only [one_mul]
        have h4 : s + (n - s) = n := by omega
        rw [h4]
        simp [hs, he]
      · have h1 : min (n + 1) e = min n e := by omega
        rw [h1]
        simp [he]
    · have h1 : min (n + 1) e - s = min n e - s := by omega
      rw [h1]
      simp [hs]

/-- The per-step window of the source's `median`/`mean` loop coincides with
the claim's centred window of half-width `window_size / 2`. -/
theorem outlierReplaceStep_eq_claim (w : ℕ) (idxs : List ℕ) (b : Bool)
    (cur : List Val) (p : ℕ) :
    outlierReplaceStep w idxs b cur p = outlierReplaceStepClaim w idxs b cur p := by
  rw [outlierReplaceStep, outlierReplaceStepClaim]
  have hv : (List.range' (p - w / 2) (min cur.length (p + w / 2 + 1) - (p - w / 2))).filter
        (fun j => decide (j ≠ p) && decide (j ∉ idxs)) =
      (List.range cur.length).filter
        (fun j => decide (j ≤ p + w / 2) && decide (p ≤ j + w / 2) &&
          decide (j ≠ p) && decide (j ∉ idxs)) := by
    rw [← filter_range_interval cur.length (p - w / 2) (p + w / 2 + 1),
      List.filter_filter]
    refine List.filter_congr (fun j hj => ?_)
    rw [List.mem_range] at hj
    rw [Bool.eq_iff_iff]
    simp only [Bool.and_eq_true, decide_eq_true_eq]
    have hiff : (p - w / 2 ≤ j ∧ j < p + w / 2 + 1) ↔ (j ≤ p + w / 2 ∧ p ≤ j + w / 2) := by
      omega
    tauto
  rw [hv]

/-- C2.  `correct_outliers` with method `median` or `mean` processes the
flagged positions in the order given as a fold over the table state: each
flagged position is replaced by the median/mean of the values in the centred
window of width `window_size` around it, excluding itself and every other
flagged position, read from the table as it stands at that step (so earlier
replacements are visible to later ones), and a position with no remaining
valid neighbour or an undefined replacement is skipped. -/
theorem correct_outliers_median_mean_spec (vals : List Val) (idxs : List ℕ)
    (w : ℕ) (method : String) (hm : method = "median" ∨ method = "mean")
    (hne : idxs ≠ []) :
    correct_outliers vals idxs w method =
      idxs.foldl (outlierReplaceStepClaim w idxs (method = "median")) vals := by
  have hsteps : ∀ (l : List ℕ) (start : List Val),
      l.foldl (outlierReplaceStep w idxs (method = "median")) start =
        l.foldl (outlierReplaceStepClaim w idxs (method = "median")) start := by
    intro l
    induction l with
    | nil => intro start; rfl
    | cons a l ih =>
      intro start
      simp only [List.foldl_cons, outlierReplaceStep_eq_claim]
      exact ih _
  rcases hm with h | h <;> subst h <;>
    rw [correct_outliers, if_neg (by simp [hne]), if_neg (by decide), if_neg (by decide),
      if_pos (by decide)] <;>
    exact hsteps idxs vals

/-- Witness for C2: one outlier at position 4 of Scenario A's table with
method `median`; the fold replaces it by the median of its valid
neighbours. -/
theorem correct_outliers_median_mean_spec_witness :
    correct_outliers ([10, 10, 10, 10, 1000, 10, 10, 10, 10, 10].map some) [4] 5 "median" =
      [4].foldl (outlierReplaceStepClaim 5 [4] ("median" = "median"))
        ([10, 10, 10, 10, 1000, 10, 10, 10, 10, 10].map some) :=
  correct_outliers_median_mean_spec ([10, 10, 10, 10, 1000, 10, 10, 10, 10, 10].map some)
    [4] 5 "median" (Or.inl rfl) (by simp)

/-- `getD` through `mapIdx` at an in-range position. -/
theorem mapIdx_getD (l : List Val) (f : ℕ → Val → Val) {j : ℕ} (h : j < l.length) :
    (l.mapIdx f).getD j none = f j (l.getD j none) := by
  have h' : j < (l.mapIdx f).length := by rw [List.length_mapIdx]; exact h
  rw [List.getD_eq_getElem?_getD, List.getElem?_eq_getElem h',
    List.getD_eq_getElem?_getD, List.getElem?_eq_getElem h]
  simp [List.get_mapIdx]

/-- C8.  `correct_outliers` with method `remove` on a non-empty finding set
(of in-range positions, as a detector produces) keeps the length of the value
column, sets exactly the flagged positions to missing, and leaves every
non-flagged cell bit-identical; no other part of the table is touched (the
source writes only `value_col` at `outlier_indices`). -/
theorem correct_outliers_remove_spec (vals : List Val) (idxs : List ℕ) (w : ℕ)
    (hne : idxs ≠ []) (hvalid : ∀ i ∈ idxs, i < vals.length) :
    (correct_outliers vals idxs w "remove").length = vals.length
    ∧ ∀ j, j < vals.length →
        (j ∈ idxs → (correct_outliers vals idxs w "remove").getD j none = none)
        ∧ (j ∉ idxs → (correct_outliers vals idxs w "remove").getD j none = vals.getD j none) := by
  rw [correct_outliers, if_neg (by simp [hne]), if_neg (by decide), if_pos (by decide)]
  refine ⟨List.length_mapIdx, fun j hj => ⟨fun hmem => ?_, fun hmem => ?_⟩⟩
  · rw [mapIdx_getD _ _ hj, if_pos hmem]
  · rw [mapIdx_getD _ _ hj, if_neg hmem]

/-- Witness for C8: removing the single flagged position 1 of `[1, 2, 3]`
blanks it and keeps position 2 intact. -/
theorem correct_outliers_remove_spec_witness :
    (correct_outliers [some 1, some 2, some 3] [1] 5 "remove").length = 3
    ∧ (correct_outliers [some 1, some 2, some 3] [1] 5 "remove").getD 1 none = none
    ∧ (correct_outliers [some 1, some 2, some 3] [1] 5 "remove").getD 2 none =
        ([some 1, some 2, some 3] : List Val).getD 2 none := by
  have h := correct_outliers_remove_spec [some 1, some 2, some 3] [1] 5
    (by simp) (by intro i hi; simp at hi; subst hi; simp)
  exact ⟨h.1, (h.2 1 (by simp)).1 (by simp), (h.2 2 (by simp)).2 (by simp)⟩

/-- C9.  `correct_outliers` with a method outside
`{median, mean, interpolate, remove}` and a non-empty finding set is a total
no-op: it returns the value column unchanged (the source logs an error and
returns the untouched copy; no exception escapes). -/
theorem correct_outliers_invalid_method_noop (vals : List Val) (idxs : List ℕ)
    (w : ℕ) (method : String) (hne : idxs ≠ [])
    (h1 : method ≠ "interpolate") (h2 : method ≠ "remove")
    (h3 : method ≠ "median") (h4 : method ≠ "mean") :
    correct_outliers vals idxs w method = vals := by
  rw [correct_outliers, if_neg (by simp [hne]), if_neg h1, if_neg h2,
    if_neg (by rintro (h | h) <;> simp_all)]

/-- Witness for C9: the unsupported method `drop` leaves the table alone. -/
theorem correct_outliers_invalid_method_noop_witness :
    correct_outliers [some 1, some 2] [0] 5 "drop" = [some 1, some 2] :=
  correct_outliers_invalid_method_noop [some 1, some 2] [0] 5 "drop"
    (by simp) (by decide) (by decide) (by decide) (by decide)

/-- A `drop`/`take` slice read off elementwise. -/
theorem drop_take_eq_map_getD (l : List Val) (a k : ℕ) (h : a + k ≤ l.length) :
    (l.drop a).take k = (List.range k).map (fun j => l.getD (a + j) none) := by
  apply List.ext_getElem
  · simp only [List.length_take, List.length_drop, List.length_map, List.length_range]
    omega
  · intro i h1 h2
    simp only [List.length_take, List.length_drop] at h1
    rw [List.getElem_take, List.getElem_drop]
    rw [List.getElem_map, List.getElem_range]
    rw [List.getD_eq_getElem?_getD, List.getElem?_eq_getElem (by omega)]
    simp

/-- C4.  One `correct_jumps` iteration at flagged position `p`: skipped
exactly when fewer than `window_size` rows lie on either side; otherwise,
with `d` the median of the `window_size` values immediately before `p` minus
the median of the `window_size` values from `p` on, every value at a
position `< p` is unchanged and every value at a position `≥ p` is increased
by exactly `d`; and processing the single flagged position `p` is exactly
this iteration. -/
theorem correct_jumps_spec (vals : List Val) (w p : ℕ) :
    (p < w ∨ vals.length - w ≤ p → jumpStep w vals p = vals)
    ∧ (∀ mb ma, w ≤ p → p + w < vals.length →
        medianOpt (valuesBefore vals w p) = some mb →
        medianOpt (valuesAfter vals w p) = some ma →
        (∀ j, j < p → (jumpStep w vals p).getD j none = vals.getD j none)
        ∧ (∀ j, p ≤ j → j < vals.length →
            (jumpStep w vals p).getD j none =
              (vals.getD j none).map (fun x => x + (mb - ma)))
        ∧ (jumpStep w vals p).length = vals.length)
    ∧ correct_jumps vals [p] w = jumpStep w vals p := by
  refine ⟨fun h => by rw [jumpStep, if_pos h], ?_, ?_⟩
  · intro mb ma hwp hpw hmb hma
    have hcond : ¬ (p < w ∨ vals.length - w ≤ p) := by omega
    have hbefore : (vals.drop (p - w)).take w = valuesBefore vals w p := by
      rw [valuesBefore]; exact drop_take_eq_map_getD vals (p - w) w (by omega)
    have hafter : (vals.drop p).take w = valuesAfter vals w p := by
      rw [valuesAfter]; exact drop_take_eq_map_getD vals p w (by omega)
    simp only [jumpStep, if_neg hcond, hbefore, hafter, hmb, hma]
    refine ⟨fun j hj => ?_, fun j hj1 hj2 => ?_, List.length_mapIdx⟩
    · rw [mapIdx_getD _ _ (by omega), if_neg (by omega)]
    · rw [mapIdx_getD _ _ hj2, if_pos hj1]
  · rw [correct_jumps, if_neg (by simp)]
    simp [isort, insertOrd]

/-- Witness for C4: a single jump flagged at position 2 of
`[0, 0, 5, 5, 5]` with `window_size = 2`; the offset is `0 - 5 = -5`,
position 1 is untouched and position 4 is shifted by `-5`. -/
theorem correct_jumps_spec_witness :
    correct_jumps [some 0, some 0, some 5, some 5, some 5] [2] 2 =
      jumpStep 2 [some 0, some 0, some 5, some 5, some 5] 2
    ∧ (jumpStep 2 [some 0, some 0, some 5, some 5, some 5] 2).getD 1 none =
        ([some 0, some 0, some 5, some 5, some 5] : List Val).getD 1 none
    ∧ (jumpStep 2 [some 0, some 0, some 5, some 5, some 5] 2).getD 4 none =
        (([some 0, some 0, some 5, some 5, some 5] : List Val).getD 4 none).map
          (fun x => x + ((0 : ℚ) - 5)) := by
  have h := correct_jumps_spec [some 0, some 0, some 5, some 5, some 5] 2 2
  have h2 := h.2.1 0 5 (by norm_num) (by simp)
    (by norm_num [valuesBefore, medianOpt, List.filterMap, medianQ, isort, insertOrd,
      List.range_succ])
    (by norm_num [valuesAfter, medianOpt, List.filterMap, medianQ, isort, insertOrd,
      List.range_succ])
  exact ⟨h.2.2, h2.1 1 (by norm_num), h2.2.1 4 (by norm_num) (by simp)⟩

/-- A successful gap insertion always leaves a plain range index
(`pd.concat(...).reset_index(drop=True)`). -/
theorem gapInsertStep_dtIndex {f f2 : Frame} {g : ℕ}
    (h : gapInsertStep f g = some f2) : f2.dtIndex = false := by
  rw [gapInsertStep] at h
  rcases hinfo : gapStepInfo f g with _ | ⟨⟨tb, ta, s⟩⟩ <;> rw [hinfo] at h
  · simp at h
  · by_cases hs : s ≤ 0
    · simp [hs] at h
    · by_cases hk : pyRound ((ta - tb) / s) - 1 ≤ 0
      · simp [hs, hk] at h
      · simp only [if_neg hs, if_neg hk, Option.some.injEq] at h
        rw [← h]

/-- The gap-filling loop never recreates a datetime index. -/
theorem gapInsertGo_dtIndex (l : List ℕ) : ∀ (f : Frame) (done : List ℕ),
    f.dtIndex = false → (gapInsertGo f l done).dtIndex = false := by
  induction l with
  | nil => intro f done h; exact h
  | cons g rest ih =>
    intro f done h
    rw [gapInsertGo]
    by_cases hskip : g ∈ done ∨ g = 0
    · rw [if_pos hskip]; exact ih f done h
    · rw [if_neg hskip]
      cases hstep : gapInsertStep f g with
      | some f2 => exact ih f2 (g :: done) (gapInsertStep_dtIndex hstep)
      | none => exact ih f done h

/-- C10.  Because `correct_gaps` resets the index to a plain range index
before interpolating, the `'time'` interpolation branch (which requires a
`DatetimeIndex`) is unreachable, and `method='time'` returns exactly the
table `method='linear'` returns, for every input table and every non-empty
gap finding set. -/
theorem correct_gaps_time_eq_linear (f : Frame) (idxs : List ℕ)
    (hne : idxs ≠ []) :
    correct_gaps f idxs "time" = correct_gaps f idxs "linear" := by
  have hdt : (gapInsertGo (sortByTime f)
      (isort (fun a b => decide (b ≤ a)) idxs) []).dtIndex = false :=
    gapInsertGo_dtIndex _ _ _ rfl
  simp only [correct_gaps]
  simp [hne, hdt]

/-- Witness for C10 on the Scenario B table with the gap flagged at
position 4. -/
theorem correct_gaps_time_eq_linear_witness :
    correct_gaps ⟨[0, 1, 2, 3, 10, 11],
        [some 0, some 1, some 2, some 3, some 10, some 11], false⟩ [4] "time" =
      correct_gaps ⟨[0, 1, 2, 3, 10, 11],
        [some 0, some 1, some 2, some 3, some 10, some 11], false⟩ [4] "linear" :=
  correct_gaps_time_eq_linear _ [4] (by simp)

/-- Round-half-to-even never overshoots by more than a half. -/
theorem pyRound_le (q : ℚ) : (pyRound q : ℚ) ≤ q + 1 / 2 := by
  have h1 : ((⌊q⌋ : ℤ) : ℚ) ≤ q := Int.floor_le q
  have h2 : q < (⌊q⌋ : ℚ) + 1 := Int.lt_floor_add_one q
  rw [pyRound]
  by_cases hr : q - (⌊q⌋ : ℚ) < 1 / 2
  · rw [if_pos hr]; linarith
  · rw [if_neg hr]
    by_cases hr2 : 1 / 2 < q - (⌊q⌋ : ℚ)
    · rw [if_pos hr2]; push_cast; linarith
    · rw [if_neg hr2]
      by_cases he : ⌊q⌋ % 2 = 0
      · rw [if_pos he]; linarith
      · rw [if_neg he]; push_cast; linarith

/-- Every entry of `linspaceQ a b k` has the explicit linear form. -/
theorem linspaceQ_mem {a b : ℚ} {k : ℕ} {t : ℚ} (h : t ∈ linspaceQ a b k) :
    ∃ j : ℕ, j < k ∧ t = a + (j : ℚ) * (b - a) / ((k : ℚ) - 1) := by
  rw [linspaceQ] at h
  rcases List.mem_map.mp h with ⟨j, hj, heq⟩
  exact ⟨j, List.mem_range.mp hj, heq.symm⟩

/-- The inserted timestamps of a non-skipped gap lie strictly between the
gap boundaries.  `s` is the positive normal step, and the missing count
`pyRound ((ta - tb) / s) - 1` is at least 1. -/
theorem linspaceQ_strictly_between (tb ta s : ℚ) (hs : 0 < s)
    (hk : 1 ≤ pyRound ((ta - tb) / s) - 1) :
    ∀ t ∈ linspaceQ (tb + s) (ta - s) (pyRound ((ta - tb) / s) - 1).toNat,
      tb < t ∧ t < ta := by
  intro t ht
  set K : ℤ := pyRound ((ta - tb) / s) with hK
  have hq : (K : ℚ) ≤ (ta - tb) / s + 1 / 2 := pyRound_le _
  have hK2 : (2 : ℤ) ≤ K := by omega
  have hg32 : (3 : ℚ) / 2 * s ≤ ta - tb := by
    have h2q : (2 : ℚ) ≤ (K : ℚ) := by exact_mod_cast hK2
    have : (3 : ℚ) / 2 ≤ (ta - tb) / s := by linarith
    calc (3 : ℚ) / 2 * s ≤ (ta - tb) / s * s := by
          exact mul_le_mul_of_nonneg_right this (le_of_lt hs)
      _ = ta - tb := div_mul_cancel₀ _ (ne_of_gt hs)
  rcases linspaceQ_mem ht with ⟨j, hj, rfl⟩
  rcases Nat.lt_or_ge j 1 with hj1 | hj1
  · -- j = 0: the first point is tb + s
    interval_cases j
    simp only [Nat.cast_zero, zero_mul, zero_div, add_zero]
    constructor
    · linarith
    · linarith
  · -- j ≥ 1 forces k ≥ 2, hence K ≥ 3 and ta - tb ≥ 5/2 * s
    have hk2 : 2 ≤ (K - 1).toNat := by omega
    have hK3 : (3 : ℤ) ≤ K := by omega
    have h3q : (3 : ℚ) ≤ (K : ℚ) := by exact_mod_cast hK3
    have hg52 : (5 : ℚ) / 2 * s ≤ ta - tb := by
      have : (5 : ℚ) / 2 ≤ (ta - tb) / s := by linarith
      calc (5 : ℚ) / 2 * s ≤ (ta - tb) / s * s := by
            exact mul_le_mul_of_nonneg_right this (le_of_lt hs)
        _ = ta - tb := div_mul_cancel₀ _ (ne_of_gt hs)
    have hba : 0 < ta - s - (tb + s) := by linarith
    have hden : (0 : ℚ) < ((K - 1).toNat : ℚ) - 1 := by
      have : (2 : ℚ) ≤ ((K - 1).toNat : ℚ) := by exact_mod_cast hk2
      linarith
    have hstep : 0 ≤ (j : ℚ) * (ta - s - (tb + s)) / (((K - 1).toNat : ℚ) - 1) := by
      apply div_nonneg _ (le_of_lt hden)
      exact mul_nonneg (Nat.cast_nonneg j) (le_of_lt hba)
    have hupper : (j : ℚ) * (ta - s - (tb + s)) / (((K - 1).toNat : ℚ) - 1) ≤
        ta - s - (tb + s) := by
      rw [div_le_iff₀ hden]
      have hjle : (j : ℚ) ≤ ((K - 1).toNat : ℚ) - 1 := by
        have h1 : j + 1 ≤ (K - 1).toNat := hj
        have h2 : (j : ℚ) + 1 ≤ ((K - 1).toNat : ℚ) := by exact_mod_cast h1
        linarith
      calc (j : ℚ) * (ta - s - (tb + s)) ≤ (((K - 1).toNat : ℚ) - 1) * (ta - s - (tb + s)) :=
            mul_le_mul_of_nonneg_right hjle (le_of_lt hba)
        _ = (ta - s - (tb + s)) * (((K - 1).toNat : ℚ) - 1) := by ring
    constructor
    · linarith
    · linarith

/-- Inserting into a sorted list adds one element. -/
theorem insertOrd_length (r : α → α → Bool) (a : α) (l : List α) :
    (insertOrd r a l).length = l.length + 1 := by
  induction l with
  | nil => rfl
  | cons b l ih =>
    rw [insertOrd]
    by_cases h : r a b
    · rw [if_pos h]; rfl
    · rw [if_neg h]; simp [ih]

/-- Insertion sort preserves length. -/
theorem isort_length (r : α → α → Bool) (l : List α) :
    (isort r l).length = l.length := by
  induction l with
  | nil => rfl
  | cons a l ih => rw [isort, insertOrd_length, ih]; rfl

/-- Sorting a well-formed frame preserves both column lengths. -/
theorem sortByTime_lengths (f : Frame) (hwf : f.times.length = f.vals.length) :
    (sortByTime f).times.length = f.times.length
    ∧ (sortByTime f).vals.length = f.vals.length := by
  have hz : (f.times.zip f.vals).length = f.times.length := by
    rw [List.length_zip, hwf, min_self]
  constructor <;> simp [sortByTime, isort_length, hz, hwf]

/-- A successful insertion at gap `g` grows both columns by exactly the
missing count of that gap. -/
theorem gapInsertStep_lengths {f f2 : Frame} {g : ℕ}
    (h : gapInsertStep f g = some f2) :
    f2.times.length = f.times.length + missingCount f g
    ∧ f2.vals.length = f.vals.length + missingCount f g := by
  rw [gapInsertStep] at h
  rcases hinfo : gapStepInfo f g with _ | ⟨⟨tb, ta, s⟩⟩ <;> rw [hinfo] at h
  · simp at h
  · by_cases hs : s ≤ 0
    · simp [hs] at h
    · by_cases hk : pyRound ((ta - tb) / s) - 1 ≤ 0
      · simp [hs, hk] at h
      · simp only [if_neg hs, if_neg hk, Option.some.injEq] at h
        have hmc : missingCount f g = (pyRound ((ta - tb) / s) - 1).toNat := by
          simp [missingCount, hinfo, hs]
        rw [← h, hmc]
        constructor <;> simp [linspaceQ] <;> omega

/-- The gap-filling loop grows both columns by the total inserted count. -/
theorem gapInsertGo_lengths (l : List ℕ) : ∀ (f : Frame) (done : List ℕ),
    (gapInsertGo f l done).times.length = f.times.length + totalInserted f l done
    ∧ (gapInsertGo f l done).vals.length = f.vals.length + totalInserted f l done := by
  induction l with
  | nil => intro f done; simp [gapInsertGo, totalInserted]
  | cons g rest ih =>
    intro f done
    rw [gapInsertGo, totalInserted]
    by_cases hskip : g ∈ done ∨ g = 0
    · rw [if_pos hskip, if_pos hskip]; exact ih f done
    · rw [if_neg hskip, if_neg hskip]
      cases hstep : gapInsertStep f g with
      | some f2 =>
        have hlen := gapInsertStep_lengths hstep
        have hrec := ih f2 (g :: done)
        constructor
        · rw [hrec.1, hlen.1]; ring
        · rw [hrec.2, hlen.2]; ring
      | none => exact ih f done

/-- Interpolation never changes the column length. -/
theorem interpolateWith_length (xs : List ℚ) (vals : List Val) :
    (interpolateWith xs vals).length = vals.length := by
  simp [interpolateWith]

/-- C6.  `correct_gaps` processes the flagged gaps in descending position
order.  For every state of the table and every gap with boundaries
`t_before`, `t_after` and derivable step `s`: if `s` is positive and
`missing_count = round((t_after - t_before)/s) - 1` is at least 1, the
iteration inserts exactly `missing_count` rows at the gap, all of whose
timestamps lie strictly between the boundaries and all of whose value cells
are missing; the gap is skipped when `s ≤ 0`, when `missing_count ≤ 0`, or
when no step is derivable.  The returned table's length is the input length
plus the total number of inserted rows (interpolation afterwards changes no
length). -/
theorem correct_gaps_insertion_spec (f : Frame) (idxs : List ℕ)
    (method : String) :
    (∀ (fc : Frame) (g : ℕ) (tb ta s : ℚ),
        gapStepInfo fc g = some (tb, ta, s) →
        (0 < s → 1 ≤ pyRound ((ta - tb) / s) - 1 →
          ∃ ts : List ℚ,
            gapInsertStep fc g =
              some ⟨fc.times.take g ++ ts ++ fc.times.drop g,
                    fc.vals.take g ++
                      List.replicate (pyRound ((ta - tb) / s) - 1).toNat (none : Val) ++
                      fc.vals.drop g,
                    false⟩
            ∧ ts.length = (pyRound ((ta - tb) / s) - 1).toNat
            ∧ ∀ t ∈ ts, tb < t ∧ t < ta)
        ∧ (s ≤ 0 ∨ pyRound ((ta - tb) / s) - 1 ≤ 0 → gapInsertStep fc g = none))
    ∧ (∀ (fc : Frame) (g : ℕ), gapStepInfo fc g = none → gapInsertStep fc g = none)
    ∧ (idxs ≠ [] → f.times.length = f.vals.length →
        (correct_gaps f idxs method).times.length =
          f.times.length +
            totalInserted (sortByTime f) (isort (fun a b => decide (b ≤ a)) idxs) []
        ∧ (correct_gaps f idxs method).vals.length =
            (correct_gaps f idxs method).times.length) := by
  refine ⟨?_, ?_, ?_⟩
  · intro fc g tb ta s hinfo
    constructor
    · intro hs hk
      refine ⟨linspaceQ (tb + s) (ta - s) (pyRound ((ta - tb) / s) - 1).toNat, ?_, ?_, ?_⟩
      · simp only [gapInsertStep, hinfo]
        rw [if_neg (not_le.mpr hs), if_neg (by omega)]
      · simp [linspaceQ]
      · exact linspaceQ_strictly_between tb ta s hs hk
    · intro hsk
      simp only [gapInsertStep, hinfo]
      rcases hsk with hsk | hsk
      · rw [if_pos hsk]
      · by_cases hs : s ≤ 0
        · rw [if_pos hs]
        · rw [if_neg hs, if_pos hsk]
  · intro fc g hnone
    simp [gapInsertStep, hnone]
  · intro hne hwf
    have h1 := sortByTime_lengths f hwf
    have h2 := gapInsertGo_lengths (isort (fun a b => decide (b ≤ a)) idxs) (sortByTime f) []
    simp only [correct_gaps, if_neg (by simp [hne] : ¬ idxs.isEmpty = true)]
    split_ifs with hA hB hC
    · constructor
      · simp only []
        rw [h2.1, h1.1]
      · simp only [interpolateWith_length]
        rw [h2.1, h2.2, h1.1, h1.2, hwf]
    · constructor
      · rw [h2.1, h1.1]
      · simp only [interpolateLinear, interpolateWith_length]
        rw [h2.1, h2.2, h1.1, h1.2, hwf]
    · constructor
      · rw [h2.1, h1.1]
      · simp only [interpolateLinear, interpolateWith_length]
        rw [h2.1, h2.2, h1.1, h1.2, hwf]
    · constructor
      · rw [h2.1, h1.1]
      · rw [h2.1, h2.2, h1.1, h1.2, hwf]

/-- Witness for C6 on times `0, 1, 2, 10` with the gap flagged at position 3:
the local step is 1, the missing count is `round(8) - 1 = 7`, the insertion
succeeds, and the corrected table's length is `4 + 7`. -/
theorem correct_gaps_insertion_spec_witness :
    ((gapInsertStep ⟨[0, 1, 2, 10], [some 0, some 1, some 2, some 10], false⟩ 3).isSome = true)
    ∧ (correct_gaps ⟨[0, 1, 2, 10], [some 0, some 1, some 2, some 10], false⟩
        [3] "linear").times.length =
        ([0, 1, 2, 10] : List ℚ).length +
          totalInserted
            (sortByTime ⟨[0, 1, 2, 10], [some 0, some 1, some 2, some 10], false⟩)
            (isort (fun a b => decide (b ≤ a)) [3]) []
    ∧ (correct_gaps ⟨[0, 1, 2, 10], [some 0, some 1, some 2, some 10], false⟩
        [3] "linear").vals.length =
        (correct_gaps ⟨[0, 1, 2, 10], [some 0, some 1, some 2, some 10], false⟩
          [3] "linear").times.length := by
  have h := correct_gaps_insertion_spec
    ⟨[0, 1, 2, 10], [some 0, some 1, some 2, some 10], false⟩ [3] "linear"
  have hinfo : gapStepInfo ⟨[0, 1, 2, 10], [some 0, some 1, some 2, some 10], false⟩ 3 =
      some (2, 10, 1) := by
    norm_num [gapStepInfo]
  have hround : pyRound ((10 - 2) / 1) = 8 := by
    norm_num [pyRound]
  obtain ⟨ts, hstep, -, -⟩ :=
    (h.1 _ 3 2 10 1 hinfo).1 (by norm_num) (by rw [hround]; norm_num)
  have hlen := h.2.2 (by simp) (by simp)
  exact ⟨by rw [hstep]; rfl, hlen.1, hlen.2⟩

/-- The recursive CUSUM loop is the left fold of `jumpUpd` over the
remaining positions, with an accumulator of already-flagged positions. -/
theorem detectJumpsGo_eq_foldl (xs : List (Option ℝ)) (w : ℕ) (θ : ℝ) :
    ∀ (m i : ℕ), i + m = xs.length → ∀ (c : Option ℝ) (acc : List ℕ),
      ((List.range' i m).foldl
        (fun st j =>
          ((jumpUpd xs w θ st.1 j).1,
            if (jumpUpd xs w θ st.1 j).2 then st.2 ++ [j] else st.2))
        (c, acc)).2
        = acc ++ detectJumpsGo xs w θ i c := by
  intro m
  induction m with
  | zero =>
    intro i hi c acc
    have hge : ¬ i < xs.length := by omega
    rw [detectJumpsGo, dif_neg hge]
    simp [List.range']
  | succ m ih =>
    intro i hi c acc
    have hlt : i < xs.length := by omega
    rw [List.range'_succ, List.foldl_cons]
    rw [detectJumpsGo, dif_pos hlt]
    by_cases hflag : (jumpUpd xs w θ c i).2
    · rw [if_pos hflag, if_pos hflag]
      rw [ih (i + 1) (by omega) (jumpUpd xs w θ c i).1 (acc ++ [i])]
      simp
    · rw [if_neg hflag, if_neg hflag]
      rw [ih (i + 1) (by omega) (jumpUpd xs w θ c i).1 acc]
      simp

/-- C3.  `detect_jumps` returns the empty finding set on fewer than
`2 × window_size` rows, and otherwise equals the claim's single stateful
left-to-right pass: starting at position `window_size`, each position's
deviation from the previous trailing rolling mean (normalized by the
previous trailing rolling std when defined and above `1e-6`, by `0`
otherwise) is accumulated into a running cusum, the position is flagged
exactly when `|cusum| > threshold`, and the cusum resets to `0` after each
flag. -/
theorem detect_jumps_matches_claim (xs : List (Option ℝ)) (w : ℕ) (θ : ℝ) :
    (xs.length < 2 * w → detect_jumps xs w θ = [])
    ∧ detect_jumps xs w θ = detect_jumps_claim xs w θ := by
  constructor
  · intro h
    rw [detect_jumps, if_pos (by omega)]
  · rw [detect_jumps, detect_jumps_claim]
    by_cases h : xs.length < w * 2
    · rw [if_pos h, if_pos (by omega)]
    · rw [if_neg h, if_neg (by omega)]
      rw [detectJumpsGo_eq_foldl xs w θ (xs.length - w) w (by omega) (some 0) []]
      simp

/-- Witness for C3: a two-row table with `window_size = 1` is below the
`2 × window_size` bound, and the loop characterization holds there. -/
theorem detect_jumps_matches_claim_witness :
    detect_jumps [some (1 : ℝ)] 1 3 = []
    ∧ detect_jumps [some (1 : ℝ)] 1 3 = detect_jumps_claim [some (1 : ℝ)] 1 3 :=
  ⟨(detect_jumps_matches_claim [some (1 : ℝ)] 1 3).1 (by simp),
    (detect_jumps_matches_claim [some (1 : ℝ)] 1 3).2⟩

/-- Once the time column has resolved, the value-column resolution succeeds
exactly under the claim's condition. -/
theorem resolveValueCol_isSome_eq (t : RawTable) (cfg : Config) (times : List ℚ)
    (htime : timeColOk t cfg = true) :
    (resolveValueCol t cfg times).isSome = valueColOk t cfg := by
  cases hv : cfg.value_col with
  | some v =>
    simp only [resolveValueCol, valueColOk, hv]
    by_cases hvt : v = cfg.time_col
    · rw [if_pos hvt, if_pos hvt, htime]; rfl
    · rw [if_neg hvt, if_neg hvt]
      cases hl : lookupCol t v with
      | none => simp [hl]
      | some cd => cases cd <;> simp [hl]
  | none =>
    simp only [resolveValueCol, valueColOk, hv]
    cases hf : t.find? (fun p => decide (p.1 ≠ cfg.time_col) && isNum p.2) with
    | none =>
      have hall := List.find?_eq_none.mp hf
      simp only [hf, Option.isSome_none]
      symm
      simp only [List.any_eq_false]
      intro p hp
      exact fun hc => hall p hp hc
    | some p =>
      have hpred := List.find?_some hf
      have hmem := List.mem_of_find?_eq_some hf
      have hany : t.any (fun p => decide (p.1 ≠ cfg.time_col) && isNum p.2) = true :=
        List.any_eq_true.mpr ⟨p, hmem, hpred⟩
      simp only [hany]
      cases hq : p.2 with
      | num vs => simp [hf, hq]
      | dt secs => rw [hq] at hpred; simp [isNum] at hpred
      | txt => rw [hq] at hpred; simp [isNum] at hpred

/-- C7.  `process_data` returns an error — with no stage having run and, the
return type being `Except`, no partial table — exactly when the configured
time column is absent or unconvertible, or when no numeric value column can
be resolved; otherwise column resolution succeeds and the call returns the
table produced by the three stages. -/
theorem process_data_fail_fast (t : RawTable) (cfg : Config) :
    ((∃ e, process_data t cfg = .error e) ↔
      timeColOk t cfg = false ∨ valueColOk t cfg = false)
    ∧ (timeColOk t cfg = true → valueColOk t cfg = true →
        process_data t cfg =
          .ok (runStages (resolvedTimes t cfg) (resolvedVals t cfg) cfg)) := by
  cases hl : lookupCol t cfg.time_col with
  | none =>
    have htf : timeColOk t cfg = false := by simp [timeColOk, hl]
    constructor
    · simp [process_data, hl, htf]
    · intro htime; rw [htf] at htime; exact absurd htime (by simp)
  | some cd =>
    cases ht : toNumeric cd with
    | none =>
      have htf : timeColOk t cfg = false := by simp [timeColOk, hl, ht]
      constructor
      · simp [process_data, hl, ht, htf]
      · intro htime; rw [htf] at htime; exact absurd htime (by simp)
    | some times =>
      have htt : timeColOk t cfg = true := by simp [timeColOk, hl, ht]
      have hres := resolveValueCol_isSome_eq t cfg times htt
      cases hr : resolveValueCol t cfg times with
      | none =>
        have hvf : valueColOk t cfg = false := by rw [← hres, hr]; rfl
        constructor
        · simp [process_data, hl, ht, hr, htt, hvf]
        · intro _ hvok; rw [hvf] at hvok; exact absurd hvok (by simp)
      | some vs =>
        have hvt : valueColOk t cfg = true := by rw [← hres, hr]; rfl
        constructor
        · simp [process_data, hl, ht, hr, htt, hvt]
        · intro _ _
          have h1 : resolvedTimes t cfg = times := by
            simp [resolvedTimes, hl, ht]
          have h2 : resolvedVals t cfg = vs := by
            rw [resolvedVals, h1, hr]; rfl
          simp only [process_data, hl, ht, hr, h1, h2]

/-- Witness for C7 on a well-formed two-column table with the default
configuration: resolution succeeds and the pipeline output is the staged
table. -/
theorem process_data_fail_fast_witness :
    process_data [("Time (Seconds)", ColData.num [0, 1]), ("Sensor 1", ColData.num [5, 6])]
        defaultConfig =
      .ok (runStages
        (resolvedTimes
          [("Time (Seconds)", ColData.num [0, 1]), ("Sensor 1", ColData.num [5, 6])]
          defaultConfig)
        (resolvedVals
          [("Time (Seconds)", ColData.num [0, 1]), ("Sensor 1", ColData.num [5, 6])]
          defaultConfig)
        defaultConfig) :=
  (process_data_fail_fast
    [("Time (Seconds)", ColData.num [0, 1]), ("Sensor 1", ColData.num [5, 6])]
    defaultConfig).2 (by decide) (by decide)

end SeriesCorrection
